import Mathlib

/-!
# Verification of `download_and_create_pdf.py`

A shallow embedding of the two components of the repository
`caldwells_clarion_pdf` (file `src/download_and_create_pdf.py`):

* the **Fetcher** (`ImageDownloader.download_images` and
  `ImageDownloader.get_existing_images`): a sequential download loop that
  stops after a configured number of 404 responses uninterrupted by a
  success, together with the directory-scan alternative;
* the **Compiler** (`ImageDownloader.create_pdf`): the per-image
  resize / color-normalization / re-encode pipeline and its aggregate
  compression report.

HTTP transport, the image library primitives and the filesystem are
external collaborators: they enter the model as value parameters (the
response of the server at each index, the decode outcome and byte size of
each file, the size of the JPEG encoding of an image).
-/

namespace CaldwellsClarion

/-! ## Fetcher: data model -/

/-- Outcome of one `self.session.get(url, timeout=30)` call, as the loop
body of `download_images` distinguishes them: an HTTP response with a
status code, a `requests.exceptions.Timeout`, or any other
`requests.exceptions.RequestException`. -/
inductive HttpResult where
  | status (code : Nat)
  | timeout
  | connError
deriving DecidableEq

/-- The mutable state of the `download_images` loop:
`downloaded_files` (modelled by the numeric indices of the saved files),
`consecutive_404s`, the index cursor `current`, and the number of
`session.get` calls issued so far. -/
structure DLState where
  downloaded : List Nat
  consecutive404s : Nat
  current : Nat
  requests : Nat
deriving DecidableEq

/-- State at entry of the loop: `downloaded_files = []`,
`consecutive_404s = 0`, `current = start`, no request issued yet. -/
def initState (start : Nat) : DLState :=
  { downloaded := [], consecutive404s := 0, current := start, requests := 0 }

/-- One iteration of the `while` body of `download_images` at the current
index, given the result of the network call:

* status 200: write the file, append it to `downloaded_files`, reset
  `consecutive_404s` to 0;
* status 404: `consecutive_404s += 1`;
* any other status: nothing (logged only);
* timeout / transport error: nothing (logged only);

and in every case `current += 1` at the end of the body. -/
def step (r : HttpResult) (s : DLState) : DLState :=
  let s1 : DLState := { s with requests := s.requests + 1 }
  let s2 : DLState :=
    match r with
    | .status code =>
        if code = 200 then
          { s1 with downloaded := s1.downloaded ++ [s1.current], consecutive404s := 0 }
        else if code = 404 then
          { s1 with consecutive404s := s1.consecutive404s + 1 }
        else s1
    | .timeout => s1
    | .connError => s1
  { s2 with current := s2.current + 1 }

/-- The loop `while consecutive_404s < self.max_consecutive_404s`, run for
at most `fuel` iterations (the Python loop has no fuel; `fuel` makes the
partial loop total, and non-termination is `∀ fuel, the guard still
holds`).  `resp i` is the outcome the server gives for index `i`.
The threshold is an integer, as in Python it may be negative. -/
def runAux (maxC : Int) (resp : Nat → HttpResult) : Nat → DLState → DLState
  | 0, s => s
  | fuel + 1, s =>
      if (s.consecutive404s : Int) < maxC then
        runAux maxC resp fuel (step (resp s.current) s)
      else s

/-- `download_images(start)` observed through `fuel` iterations: `some`
of the final `downloaded_files` when the loop has stopped within `fuel`
iterations, `none` when the guard still holds after `fuel` iterations. -/
def download_images (maxC : Int) (resp : Nat → HttpResult) (fuel : Nat) (start : Nat) :
    Option (List Nat) :=
  let s := runAux maxC resp fuel (initState start)
  if (s.consecutive404s : Int) < maxC then none else some s.downloaded

/-- The run of `download_images` terminates: the guard fails after some
finite number of iterations. -/
def Terminates (maxC : Int) (resp : Nat → HttpResult) (start : Nat) : Prop :=
  ∃ fuel, (download_images maxC resp fuel start).isSome

/-- The value of `consecutive_404s` after `n` iterations of the body,
computed directly from the responses (ignoring the stop guard): reset to
0 by a 200, incremented by a 404, untouched by anything else. -/
def counterTraj (resp : Nat → HttpResult) (start : Nat) : Nat → Nat
  | 0 => 0
  | n + 1 =>
      match resp (start + n) with
      | .status code =>
          if code = 200 then 0
          else if code = 404 then counterTraj resp start n + 1
          else counterTraj resp start n
      | .timeout => counterTraj resp start n
      | .connError => counterTraj resp start n

/-- The response sequence of claim C1: status 500 at every odd index,
status 404 at every even index, so that (from `start = 1`) the statuses
strictly alternate 500, 404, 500, 404, ... -/
def respAlternating : Nat → HttpResult := fun i =>
  if i % 2 = 1 then .status 500 else .status 404

/-- The response sequence of claim C2 (from `start = 1`):
404, 404, 200, 404, 404, 404, 404, 404, and 404 from index 9 on. -/
def respTwoRuns : Nat → HttpResult := fun i =>
  if i = 3 then .status 200 else .status 404

/-! ## Fetcher: filenames and the directory scan -/

/-- The big-endian decimal digit characters of `n` written in exactly `w`
positions (the representation used by Python's fixed-width formatting): the
leading position holds `n / 10 ^ (w - 1)`, and the remainder is rendered in
the remaining `w - 1` positions. -/
def digitsBE : Nat → Nat → List Char
  | 0, _ => []
  | w + 1, n => Char.ofNat (48 + n / 10 ^ w) :: digitsBE w (n % 10 ^ w)

/-- The number of decimal digits of `n`, computed with an explicit fuel
(structural recursion, so that the kernel can evaluate it); the fuel is
only ever decremented while `10 ≤ n`, so `n` itself is always enough. -/
def widthAux : Nat → Nat → Nat
  | 0, _ => 1
  | fuel + 1, n => if n < 10 then 1 else widthAux fuel (n / 10) + 1

/-- The number of decimal digits of `n` (`1` for `n = 0`). -/
def numWidth (n : Nat) : Nat := widthAux n n

/-- Python's `f"{n:06d}"`: the decimal numeral of `n`, left-padded with
zeros to at least 6 characters.  The width is 6 unless the numeral of `n`
needs more digits. -/
def padNum (n : Nat) : String :=
  String.mk (digitsBE (max 6 (numWidth n)) n)

/-- The local filename chosen for index `n`:
`f"image_{current:06d}.jp2"` (the directory part is not modelled). -/
def fileName (n : Nat) : String :=
  "image_" ++ padNum n ++ ".jp2"

/-- `get_existing_images`: `sorted(self.output_dir.glob("*.jp2"))`.  The
glob result (the `.jp2` entries of the directory, in unspecified order) is
the argument; the model returns it sorted by the string order. -/
def get_existing_images (dirContents : List String) : List String :=
  List.insertionSort (· ≤ ·) dirContents

/-! ## Compiler: data model -/

/-- The PIL color modes the code distinguishes: `RGBA`, `LA` and `P` (the
alpha / palette modes composited onto white), `RGB` (left alone), and the
remaining modes (converted directly), represented by `L`, `CMYK` and a
catch-all constructor since the code treats all of them alike. -/
inductive Mode where
  | RGB
  | RGBA
  | LA
  | P
  | L
  | CMYK
  | otherMode
deriving DecidableEq

/-- A decoded image as the pipeline observes it: its pixel dimensions and
its color mode (pixel contents stay inside the image library). -/
structure PILImage where
  width : Nat
  height : Nat
  mode : Mode
deriving DecidableEq

/-- The resize step of `create_pdf`: if either dimension exceeds
`max_dimension`, both dimensions are multiplied by
`min(max_dimension / width, max_dimension / height)` and truncated to an
integer by Python's `int(...)` (floor, the values being non-negative);
otherwise the image is untouched.  Python's float arithmetic is idealized
as exact rational arithmetic. -/
def resizeStep (maxDim : Nat) (img : PILImage) : PILImage :=
  if maxDim < img.width ∨ maxDim < img.height then
    let scale : ℚ := min ((maxDim : ℚ) / (img.width : ℚ)) ((maxDim : ℚ) / (img.height : ℚ))
    { img with
      width := (⌊(img.width : ℚ) * scale⌋).toNat,
      height := (⌊(img.height : ℚ) * scale⌋).toNat }
  else img

/-- The resize step as the spec words it ("apply to both dimensions,
round to nearest integer pixel"): identical to `resizeStep` except that
the scaled dimensions are rounded to the nearest integer instead of
truncated. -/
def resizeStepSpec (maxDim : Nat) (img : PILImage) : PILImage :=
  if maxDim < img.width ∨ maxDim < img.height then
    let scale : ℚ := min ((maxDim : ℚ) / (img.width : ℚ)) ((maxDim : ℚ) / (img.height : ℚ))
    { img with
      width := (round ((img.width : ℚ) * scale)).toNat,
      height := (round ((img.height : ℚ) * scale)).toNat }
  else img

/-- The color-normalization step of `create_pdf`, at the level of modes
and dimensions: `RGBA`, `LA` and `P` images are replaced by a fresh
white `RGB` image of the same size with the original pasted onto it; any
other non-`RGB` mode is converted to `RGB`; `RGB` images pass through. -/
def convertStep (img : PILImage) : PILImage :=
  if img.mode = .RGBA ∨ img.mode = .LA ∨ img.mode = .P then
    { width := img.width, height := img.height, mode := .RGB }
  else if img.mode ≠ .RGB then { img with mode := .RGB }
  else img

/-- What the color-normalization step did to an image: composited onto an
opaque white background with an alpha mask, composited without a mask,
converted directly, or kept as is. -/
inductive NormalizeOp where
  | whiteCompositeMasked
  | whiteCompositeUnmasked
  | directConvert
  | keep
deriving DecidableEq

/-- The operation the color-normalization step performs, following the
branch structure of the code: in the `RGBA`/`LA`/`P` branch a `P` image is
first converted to `RGBA`, and the paste uses the image's last channel as
the alpha mask exactly when the (possibly converted) mode is `RGBA` or
`LA`; otherwise a direct `convert('RGB')` when the mode is not `RGB`. -/
def convertAction (img : PILImage) : NormalizeOp :=
  if img.mode = .RGBA ∨ img.mode = .LA ∨ img.mode = .P then
    let m2 := if img.mode = .P then Mode.RGBA else img.mode
    if m2 = .RGBA ∨ m2 = .LA then .whiteCompositeMasked else .whiteCompositeUnmasked
  else if img.mode ≠ .RGB then .directConvert
  else .keep

/-- One input file of `create_pdf`: the outcome of `Image.open` on it
(`none` when decoding raises, so the file is skipped with a warning), and
its on-disk byte size `img_path.stat().st_size`. -/
structure InputFile where
  decoded : Option PILImage
  byteSize : Nat
deriving DecidableEq

/-- The observable outcome of `create_pdf`: the early return on an empty
`image_files` list, the return when every image failed to process, or a
written PDF with its ordered page list and the compression report
(`none` when the report is skipped because `total_original_size = 0`). -/
inductive PdfOutcome where
  | noInput
  | noValidImages
  | written (pages : List PILImage) (report : Option ℚ)
deriving DecidableEq

/-- Whether the outcome wrote a PDF file. -/
def PdfOutcome.isWritten : PdfOutcome → Bool
  | .written _ _ => true
  | _ => false

/-- `total_original_size`: the byte sizes of the inputs that decoded
successfully (the size is added after `Image.open` succeeds). -/
def totalOriginalSize (files : List InputFile) : Nat :=
  (files.filterMap fun f => f.decoded.map fun _ => f.byteSize).sum

/-- The per-image pipeline applied to one decoded image: resize, then
color normalization.  (The subsequent JPEG round-trip through a `BytesIO`
buffer preserves size and the `RGB` mode.) -/
def processPage (maxDim : Nat) (img : PILImage) : PILImage :=
  convertStep (resizeStep maxDim img)

/-- `create_pdf(image_files, ...)`.  `jpegSize` stands for the image
library's JPEG encoder at the configured quality: the byte size
`buffer.tell()` of the in-memory JPEG of a processed page. -/
def create_pdf (maxDim : Nat) (jpegSize : PILImage → Nat) (files : List InputFile) :
    PdfOutcome :=
  if files.isEmpty then .noInput
  else
    let pages := files.filterMap fun f => f.decoded.map fun img => processPage maxDim img
    if pages.isEmpty then .noValidImages
    else
      let totalOrig := totalOriginalSize files
      let totalComp := (pages.map jpegSize).sum
      .written pages
        (if 0 < totalOrig then some ((1 - (totalComp : ℚ) / (totalOrig : ℚ)) * 100) else none)

/-- The exit status of `main` as a function of the images handed to the
compile step: `sys.exit(1)` when the list is empty (both the download
branch and the `--skip-download` branch do this before `create_pdf`),
and otherwise `create_pdf` runs and `main` returns normally (status 0),
whatever `create_pdf` did. -/
def mainExitCode (maxDim : Nat) (jpegSize : PILImage → Nat) (files : List InputFile) : Nat :=
  if files.isEmpty then 1
  else
    let _ := create_pdf maxDim jpegSize files
    0

/-! ## Helper lemmas: the download loop -/

theorem step_current (r : HttpResult) (s : DLState) : (step r s).current = s.current + 1 := by
  cases r with
  | status code =>
      by_cases h200 : code = 200
      · simp [step, h200]
      · by_cases h404 : code = 404 <;> simp [step, h200, h404]
  | timeout => rfl
  | connError => rfl

theorem step_counter_le (r : HttpResult) (s : DLState) :
    (step r s).consecutive404s ≤ s.consecutive404s + 1 := by
  cases r with
  | status code =>
      by_cases h200 : code = 200
      · simp [step, h200]
      · by_cases h404 : code = 404 <;> simp [step, h200, h404]
  | timeout => simp [step]
  | connError => simp [step]

/-- Once the guard fails, the loop body never runs again. -/
theorem runAux_of_stopped {maxC : Int} {resp : Nat → HttpResult} {s : DLState}
    (h : ¬ (s.consecutive404s : Int) < maxC) (fuel : Nat) :
    runAux maxC resp fuel s = s := by
  cases fuel <;> simp [runAux, h]

/-- Peeling one iteration off the end of the loop. -/
theorem runAux_succ (maxC : Int) (resp : Nat → HttpResult) (fuel : Nat) (s : DLState) :
    runAux maxC resp (fuel + 1) s =
      (if ((runAux maxC resp fuel s).consecutive404s : Int) < maxC then
        step (resp (runAux maxC resp fuel s).current) (runAux maxC resp fuel s)
      else runAux maxC resp fuel s) := by
  induction fuel generalizing s with
  | zero => simp [runAux]
  | succ fuel ih =>
      by_cases h : (s.consecutive404s : Int) < maxC
      · show runAux maxC resp (fuel + 1 + 1) s = _
        rw [show fuel + 1 + 1 = (fuel + 1) + 1 from rfl]
        rw [runAux, if_pos h, ih]
        rw [show runAux maxC resp (fuel + 1) s = runAux maxC resp fuel (step (resp s.current) s)
          from by rw [runAux, if_pos h]]
      · rw [runAux_of_stopped h, runAux_of_stopped h, if_neg h]

/-- The counter never exceeds a threshold it starts below or at. -/
theorem runAux_counter_le (maxC : Int) (resp : Nat → HttpResult) (fuel : Nat) (s : DLState)
    (h : (s.consecutive404s : Int) ≤ maxC) :
    ((runAux maxC resp fuel s).consecutive404s : Int) ≤ maxC := by
  induction fuel generalizing s with
  | zero => simpa [runAux] using h
  | succ fuel ih =>
      by_cases hg : (s.consecutive404s : Int) < maxC
      · rw [runAux, if_pos hg]
        apply ih
        have := step_counter_le (resp s.current) s
        omega
      · rw [runAux, if_neg hg]
        exact h

/-- As long as the guard has not failed, the loop state follows the
counter trajectory computed directly from the responses. -/
theorem runAux_eq_traj (maxC : Int) (resp : Nat → HttpResult) (start : Nat) :
    ∀ n, (∀ k, k < n → (counterTraj resp start k : Int) < maxC) →
      (runAux maxC resp n (initState start)).consecutive404s = counterTraj resp start n ∧
      (runAux maxC resp n (initState start)).current = start + n := by
  intro n
  induction n with
  | zero => intro _; simp [runAux, initState, counterTraj]
  | succ n ih =>
      intro h
      obtain ⟨hc, hcur⟩ := ih (fun k hk => h k (Nat.lt_succ_of_lt hk))
      have hguard : ((runAux maxC resp n (initState start)).consecutive404s : Int) < maxC := by
        rw [hc]; exact h n (Nat.lt_succ_self n)
      rw [runAux_succ, if_pos hguard]
      constructor
      · rw [hcur]
        show (step (resp (start + n)) _).consecutive404s = _
        rw [counterTraj]
        cases hr : resp (start + n) with
        | status code =>
            by_cases h200 : code = 200
            · simp [step, h200]
            · by_cases h404 : code = 404 <;> simp [step, h200, h404, hc]
        | timeout => simp [step, hc]
        | connError => simp [step, hc]
      · rw [step_current, hcur]
        omega

/-- The invariant of claim C7: `downloaded_files` is strictly increasing
and every saved index is below the cursor. -/
def DLInv (s : DLState) : Prop :=
  s.downloaded.Sorted (· < ·) ∧ ∀ x ∈ s.downloaded, x < s.current

theorem step_inv {s : DLState} (r : HttpResult) (h : DLInv s) : DLInv (step r s) := by
  obtain ⟨hs, hb⟩ := h
  have hgrow : ∀ ds, ds = s.downloaded ++ [s.current] →
      ds.Sorted (· < ·) ∧ ∀ x ∈ ds, x < s.current + 1 := by
    rintro ds rfl
    constructor
    · exact List.pairwise_append.mpr ⟨hs, List.sorted_singleton _, fun x hx y hy => by
        rw [List.mem_singleton] at hy; subst hy; exact hb x hx⟩
    · intro x hx
      rcases List.mem_append.mp hx with hx | hx
      · exact Nat.lt_succ_of_lt (hb x hx)
      · rw [List.mem_singleton] at hx; omega
  cases r with
  | status code =>
      by_cases h200 : code = 200
      · simp only [step, h200, if_pos]
        exact hgrow _ rfl
      · by_cases h404 : code = 404 <;>
          · simp only [step, h200, h404, if_neg, if_pos, reduceIte]
            exact ⟨hs, fun x hx => Nat.lt_succ_of_lt (hb x hx)⟩
  | timeout => exact ⟨hs, fun x hx => Nat.lt_succ_of_lt (hb x hx)⟩
  | connError => exact ⟨hs, fun x hx => Nat.lt_succ_of_lt (hb x hx)⟩

theorem runAux_inv (maxC : Int) (resp : Nat → HttpResult) (fuel : Nat) (s : DLState)
    (h : DLInv s) : DLInv (runAux maxC resp fuel s) := by
  induction fuel generalizing s with
  | zero => simpa [runAux] using h
  | succ fuel ih =>
      by_cases hg : (s.consecutive404s : Int) < maxC
      · rw [runAux, if_pos hg]
        exact ih _ (step_inv _ h)
      · rwa [runAux, if_neg hg]

theorem initState_inv (start : Nat) : DLInv (initState start) :=
  ⟨List.sorted_nil, by simp [initState]⟩

/-! ## Helper lemmas: filenames and lexicographic order -/

theorem digitsBE_length (w : Nat) : ∀ n, (digitsBE w n).length = w := by
  induction w with
  | zero => intro n; rfl
  | succ w ih => intro n; simp [digitsBE, ih]

theorem digitChar_lt_digitChar {a b : Nat} (hab : a < b) (hb : b < 10) :
    Char.ofNat (48 + a) < Char.ofNat (48 + b) := by
  interval_cases b <;> interval_cases a <;> decide

/-- Fixed-width decimal numerals compare lexicographically as the numbers
they denote. -/
theorem digitsBE_lt (w : Nat) : ∀ i j : Nat, i < j → j < 10 ^ w →
    List.Lex (· < ·) (digitsBE w i) (digitsBE w j) := by
  induction w with
  | zero =>
      intro i j hij hj
      simp [pow_zero] at hj
      omega
  | succ w ih =>
      intro i j hij hj
      have hw : 0 < 10 ^ w := pow_pos (by norm_num) w
      have hb : j / 10 ^ w < 10 := by
        rw [Nat.div_lt_iff_lt_mul hw]
        calc j < 10 ^ (w + 1) := hj
        _ = 10 * 10 ^ w := by ring
      have hab : i / 10 ^ w ≤ j / 10 ^ w := Nat.div_le_div_right (Nat.le_of_lt hij)
      rcases Nat.lt_or_ge (i / 10 ^ w) (j / 10 ^ w) with hlt | hge
      · exact List.Lex.rel (digitChar_lt_digitChar hlt hb)
      · have heq : i / 10 ^ w = j / 10 ^ w := Nat.le_antisymm hab hge
        have hmod : i % 10 ^ w < j % 10 ^ w := by
          have hi := Nat.div_add_mod i (10 ^ w)
          rw [heq] at hi
          have hjm := Nat.div_add_mod j (10 ^ w)
          omega
        have hjmod : j % 10 ^ w < 10 ^ w := Nat.mod_lt _ hw
        show List.Lex (· < ·)
          (Char.ofNat (48 + i / 10 ^ w) :: digitsBE w (i % 10 ^ w))
          (Char.ofNat (48 + j / 10 ^ w) :: digitsBE w (j % 10 ^ w))
        rw [heq]
        exact List.Lex.cons (ih _ _ hmod hjmod)

/-- Prepending a common prefix preserves lexicographic order. -/
theorem charListLexOfAppendLeft (p : List Char) {x y : List Char}
    (h : List.Lex (· < ·) x y) : List.Lex (· < ·) (p ++ x) (p ++ y) := by
  induction p with
  | nil => exact h
  | cons c p ih => exact List.Lex.cons ih

/-- Appending suffixes preserves lexicographic order of equal-length lists. -/
theorem charListLexOfAppendRight {x y : List Char} (q r : List Char)
    (hlen : x.length = y.length) (h : List.Lex (· < ·) x y) :
    List.Lex (· < ·) (x ++ q) (y ++ r) := by
  induction h with
  | nil => simp at hlen
  | cons h ih => exact List.Lex.cons (ih (by simpa using hlen))
  | rel hab => exact List.Lex.rel hab

/-- `widthAux` bound: a number below `10 ^ w` needs at most `w ≥ 1`
digits, whatever the fuel. -/
theorem widthAux_le (fuel : Nat) : ∀ n w : Nat, 1 ≤ w → n < 10 ^ w →
    widthAux fuel n ≤ w := by
  induction fuel with
  | zero => intro n w hw _; simpa [widthAux] using hw
  | succ fuel ih =>
      intro n w hw hn
      rw [widthAux]
      by_cases h10 : n < 10
      · simpa [h10] using hw
      · rw [if_neg h10]
        rcases w with - | w'
        · omega
        · have hw' : 1 ≤ w' := by
            by_contra hc
            have : w' = 0 := by omega
            subst this
            simp [pow_one] at hn
            omega
          have hdiv : n / 10 < 10 ^ w' := by
            rw [Nat.div_lt_iff_lt_mul (by norm_num : (0:Nat) < 10)]
            calc n < 10 ^ (w' + 1) := hn
            _ = 10 ^ w' * 10 := by ring
          have := ih (n / 10) w' hw' hdiv
          omega

theorem numWidth_le_six {n : Nat} (h : n < 1000000) : numWidth n ≤ 6 :=
  widthAux_le n n 6 (by norm_num) (by norm_num; omega)

/-- Below the padding bound, `padNum` renders exactly six digits. -/
theorem padNum_eq_of_lt {n : Nat} (h : n < 1000000) :
    padNum n = String.mk (digitsBE 6 n) := by
  rw [padNum, Nat.max_eq_left (numWidth_le_six h)]

theorem fileName_data (n : Nat) :
    (fileName n).data = "image_".data ++ (padNum n).data ++ ".jp2".data := by
  simp [fileName]

/-- Strict monotonicity of the filename scheme below the padding bound:
this is where the fixed-width zero-padding matters. -/
theorem fileName_lt {i j : Nat} (hij : i < j) (hj : j < 1000000) :
    fileName i < fileName j := by
  rw [String.lt_iff_toList_lt]
  show List.Lex (· < ·) (fileName i).data (fileName j).data
  rw [fileName_data, fileName_data, padNum_eq_of_lt (lt_trans hij hj), padNum_eq_of_lt hj]
  rw [List.append_assoc, List.append_assoc]
  apply charListLexOfAppendLeft
  exact charListLexOfAppendRight _ _
    (by rw [show (String.mk (digitsBE 6 i)).data = digitsBE 6 i from rfl,
         show (String.mk (digitsBE 6 j)).data = digitsBE 6 j from rfl,
         digitsBE_length, digitsBE_length])
    (digitsBE_lt 6 i j hij hj)

theorem map_fileName_sorted {ds : List Nat} (hs : ds.Sorted (· < ·))
    (hb : ∀ x ∈ ds, x < 1000000) : (ds.map fileName).Sorted (· ≤ ·) := by
  have : (ds.map fileName).Sorted (· < ·) := by
    refine List.pairwise_map.mpr (hs.imp_of_mem ?_)
    intro a b ha hbmem hlt
    exact fileName_lt hlt (hb b hbmem)
  exact this.le_of_lt

theorem get_existing_images_of_perm {ds : List Nat} {dir : List String}
    (hs : ds.Sorted (· < ·)) (hb : ∀ x ∈ ds, x < 1000000)
    (hperm : dir.Perm (ds.map fileName)) :
    get_existing_images dir = ds.map fileName :=
  List.eq_of_perm_of_sorted ((List.perm_insertionSort _ dir).trans hperm)
    (List.sorted_insertionSort _ dir) (map_fileName_sorted hs hb)

/-! ## Claims C1, C2, C7, C10: the download loop -/

/-- C1, counterexample to the claim as stated.  The claim asserts that a
response sequence strictly alternating 500, 404, 500, 404, ... (threshold
5) never terminates, for any count of responses.  In fact the run from
`start = 1` has already stopped after 10 responses, because a non-404
status leaves `consecutive_404s` unchanged rather than resetting it. -/
theorem C1_counterexample : download_images 5 respAlternating 10 1 ≠ none := by decide

/-- C1, amended: a non-404, non-timeout HTTP status never *increments*
the stop counter (it leaves the whole state unchanged except for the index
cursor and the request count, exactly like a timeout), but it does not
reset the counter either — only a 200 does — so the alternating
500, 404, ... sequence with threshold 5 stops exactly at the 10th
response, once five 404s have accumulated without an intervening 200. -/
theorem C1_amended :
    (∀ (s : DLState) (code : Nat), code ≠ 200 → code ≠ 404 →
      step (.status code) s =
        { s with current := s.current + 1, requests := s.requests + 1 }) ∧
    (∀ s : DLState, step .timeout s =
        { s with current := s.current + 1, requests := s.requests + 1 }) ∧
    (∀ fuel, fuel < 10 → download_images 5 respAlternating fuel 1 = none) ∧
    download_images 5 respAlternating 10 1 = some [] := by
  refine ⟨?_, ?_, ?_, ?_⟩
  · intro s code h200 h404
    simp [step, h200, h404]
  · intro s
    rfl
  · decide
  · decide

/-- C1 witness: the generic part of `C1_amended` applied to status 500 at
the initial state. -/
theorem C1_witness :
    step (.status 500) (initState 1) =
      { initState 1 with
        current := (initState 1).current + 1,
        requests := (initState 1).requests + 1 } :=
  C1_amended.1 (initState 1) 500 (by decide) (by decide)

/-- C2, confirmed: the loop stops exactly when `consecutive_404s` reaches
the threshold — a stopped run ends with the counter equal to the
threshold (for non-negative thresholds), and the run is still going if
and only if the counter is below the threshold; a 200 response resets the
counter to 0; and on the concrete sequence
404, 404, 200, 404, 404, 404, 404, 404 with threshold 5 the run has not
stopped after 7 responses but stops exactly at the 8th, with the index-3
file saved. -/
theorem C2_stop_iff_threshold :
    (∀ (maxC : Int) (resp : Nat → HttpResult) (fuel start : Nat), 0 ≤ maxC →
      (download_images maxC resp fuel start).isSome →
      ((runAux maxC resp fuel (initState start)).consecutive404s : Int) = maxC) ∧
    (∀ (maxC : Int) (resp : Nat → HttpResult) (fuel start : Nat),
      download_images maxC resp fuel start = none ↔
        ((runAux maxC resp fuel (initState start)).consecutive404s : Int) < maxC) ∧
    (∀ s : DLState, (step (.status 200) s).consecutive404s = 0) ∧
    download_images 5 respTwoRuns 7 1 = none ∧
    download_images 5 respTwoRuns 8 1 = some [3] := by
  refine ⟨?_, ?_, ?_, by decide, by decide⟩
  · intro maxC resp fuel start h0 hsome
    have hle := runAux_counter_le maxC resp fuel (initState start)
      (by simpa [initState] using h0)
    have hg : ¬ ((runAux maxC resp fuel (initState start)).consecutive404s : Int) < maxC := by
      intro hg
      rw [download_images] at hsome
      simp [hg] at hsome
    omega
  · intro maxC resp fuel start
    rw [download_images]
    by_cases hg : ((runAux maxC resp fuel (initState start)).consecutive404s : Int) < maxC <;>
      simp [hg]
  · intro s
    simp [step]

/-- C2 witness: the stopped concrete run of `C2_stop_iff_threshold` ends
with the counter equal to the threshold 5. -/
theorem C2_witness :
    ((runAux 5 respTwoRuns 8 (initState 1)).consecutive404s : Int) = 5 :=
  C2_stop_iff_threshold.1 5 respTwoRuns 8 1 (by decide) (by decide)

/-- C7, confirmed: at every intermediate state of the loop (any fuel),
`downloaded_files` is strictly increasing in the numeric index encoded in
each filename, and so is any returned list. -/
theorem C7_saved_paths_strictly_increasing :
    ∀ (maxC : Int) (resp : Nat → HttpResult) (fuel start : Nat),
      ((runAux maxC resp fuel (initState start)).downloaded).Sorted (· < ·) ∧
      ∀ l, download_images maxC resp fuel start = some l → l.Sorted (· < ·) := by
  intro maxC resp fuel start
  have hinv := runAux_inv maxC resp fuel _ (initState_inv start)
  refine ⟨hinv.1, ?_⟩
  intro l hl
  rw [download_images] at hl
  by_cases hg : ((runAux maxC resp fuel (initState start)).consecutive404s : Int) < maxC
  · simp [hg] at hl
  · simp only [hg, if_neg, reduceIte, Option.some.injEq] at hl
    exact hl ▸ hinv.1

/-- C7 witness: the concrete stopped run returning `[3]`. -/
theorem C7_witness : List.Sorted (· < ·) [3] :=
  (C7_saved_paths_strictly_increasing 5 respTwoRuns 8 1).2 [3] (by decide)

/-- C10, confirmed: with a zero or negative threshold the guard fails on
entry, so the loop body never runs — no network request is issued, the
state is untouched — and the empty list is returned. -/
theorem C10_nonpositive_threshold :
    ∀ maxC : Int, maxC ≤ 0 → ∀ (resp : Nat → HttpResult) (fuel start : Nat),
      runAux maxC resp fuel (initState start) = initState start ∧
      (runAux maxC resp fuel (initState start)).requests = 0 ∧
      download_images maxC resp fuel start = some [] := by
  intro maxC hm resp fuel start
  have hg : ¬ (((initState start).consecutive404s : Int) < maxC) := by
    simp only [initState]
    omega
  refine ⟨runAux_of_stopped hg fuel, ?_, ?_⟩
  · rw [runAux_of_stopped hg fuel]
    rfl
  · rw [download_images]
    simp only [runAux_of_stopped hg fuel, hg, if_neg, reduceIte]
    rfl

/-- C10 witness: threshold `-1`, an all-200 server, three units of fuel. -/
theorem C10_witness : download_images (-1) (fun _ => .status 200) 3 1 = some [] :=
  (C10_nonpositive_threshold (-1) (by norm_num) (fun _ => .status 200) 3 1).2.2

/-! ## Claim C3: termination -/

/-- C3, confirmed: the run terminates if and only if the counter
trajectory — the count of 404s accumulated since the last success, which
only a 200 resets — eventually reaches the threshold; there is no
maximum-index ceiling, and in particular a server answering status 500 at
every index keeps the loop running forever (the guard still holds after
any amount of fuel). -/
theorem C3_terminates_iff_enough_404s :
    (∀ (maxC : Int) (resp : Nat → HttpResult) (start : Nat),
      Terminates maxC resp start ↔ ∃ n, maxC ≤ (counterTraj resp start n : Int)) ∧
    (∀ fuel, download_images 5 (fun _ => .status 500) fuel 1 = none) := by
  have main : ∀ (maxC : Int) (resp : Nat → HttpResult) (start : Nat),
      Terminates maxC resp start ↔ ∃ n, maxC ≤ (counterTraj resp start n : Int) := by
    intro maxC resp start
    constructor
    · rintro ⟨fuel, hsome⟩
      by_contra hno
      push_neg at hno
      have htr := runAux_eq_traj maxC resp start fuel (fun k _ => hno k)
      rw [download_images] at hsome
      have hg : ((runAux maxC resp fuel (initState start)).consecutive404s : Int) < maxC := by
        rw [htr.1]
        exact hno fuel
      simp [hg] at hsome
    · rintro ⟨n, hn⟩
      have hex : ∃ n, maxC ≤ (counterTraj resp start n : Int) := ⟨n, hn⟩
      have hmin : ∀ k, k < Nat.find hex → (counterTraj resp start k : Int) < maxC :=
        fun k hk => not_le.mp (Nat.find_min hex hk)
      have htr := runAux_eq_traj maxC resp start (Nat.find hex) hmin
      refine ⟨Nat.find hex, ?_⟩
      rw [download_images]
      have hg : ¬ ((runAux maxC resp (Nat.find hex) (initState start)).consecutive404s : Int)
          < maxC := by
        rw [htr.1]
        exact not_lt.mpr (Nat.find_spec hex)
      simp [hg]
  refine ⟨main, ?_⟩
  intro fuel
  have hzero : ∀ n, counterTraj (fun _ => .status 500) 1 n = 0 := by
    intro n
    induction n with
    | zero => rfl
    | succ n ih => simp [counterTraj, ih]
  have hnt : ¬ Terminates 5 (fun _ => .status 500) 1 := by
    intro ht
    obtain ⟨n, hn⟩ := (main 5 (fun _ => .status 500) 1).mp ht
    rw [hzero n] at hn
    norm_num at hn
  rcases h : download_images 5 (fun _ => .status 500) fuel 1 with - | l
  · rfl
  · exact absurd ⟨fuel, by rw [h]; rfl⟩ hnt

/-! ## Claim C8: directory scan versus download order -/

/-- A server with images exactly at the indices up to 1000000: from
`start = 999999` a run saves two files and then stops on five 404s. -/
def respHighIndices : Nat → HttpResult := fun i =>
  if i ≤ 1000000 then .status 200 else .status 404

/-- C8, counterexample to the claim as stated.  The zero-padding of the
filename scheme is fixed at width 6, so a successful run that passes index
10^6 produces a directory whose lexicographically sorted listing no longer
agrees with download order: the run from `start = 999999` saves
`image_999999.jp2` then `image_1000000.jp2`, but `get_existing_images`
sorts the longer name first. -/
theorem C8_counterexample :
    download_images 5 respHighIndices 7 999999 = some [999999, 1000000] ∧
    get_existing_images [fileName 999999, fileName 1000000] =
      [fileName 1000000, fileName 999999] ∧
    fileName 999999 ≠ fileName 1000000 := by
  have hba : fileName 1000000 < fileName 999999 := by
    rw [String.lt_iff_toList_lt]
    show List.Lex (· < ·) (fileName 1000000).data (fileName 999999).data
    decide
  refine ⟨by decide, ?_, by decide⟩
  simp only [get_existing_images, List.insertionSort, List.orderedInsert]
  rw [if_neg (not_le.mpr hba)]

/-- C8, amended: the directory listing reproduces the download order
provided every saved index stays below 10^6 (so that the fixed-width
zero-padding really makes lexicographic and numeric order agree): for any
run state and any directory holding exactly the files that run saved, the
sorted scan equals the run's `downloaded_files` in order. -/
theorem C8_amended :
    ∀ (maxC : Int) (resp : Nat → HttpResult) (fuel start : Nat) (dir : List String),
      (∀ x ∈ (runAux maxC resp fuel (initState start)).downloaded, x < 1000000) →
      dir.Perm ((runAux maxC resp fuel (initState start)).downloaded.map fileName) →
      get_existing_images dir =
        (runAux maxC resp fuel (initState start)).downloaded.map fileName := by
  intro maxC resp fuel start dir hb hperm
  exact get_existing_images_of_perm
    (runAux_inv maxC resp fuel _ (initState_inv start)).1 hb hperm

/-- C8 witness: the concrete run saving index 3, its directory scanned in
place. -/
theorem C8_witness :
    get_existing_images ((runAux 5 respTwoRuns 8 (initState 1)).downloaded.map fileName) =
      (runAux 5 respTwoRuns 8 (initState 1)).downloaded.map fileName :=
  C8_amended 5 respTwoRuns 8 1 _ (by decide) (List.Perm.refl _)

/-! ## Claims C4, C6, C9: the PDF compiler -/

/-- C4, counterexample to the claim as stated.  On a non-empty input list
whose only file fails to decode, the resulting page sequence is empty and
no PDF is written, but `create_pdf` just returns after printing a message
and the process exit status is 0 — not the non-zero exit the claim
asserts for "no images available to compile". -/
theorem C4_counterexample :
    create_pdf 2000 (fun _ => 0) [⟨none, 100⟩] = .noValidImages ∧
    (create_pdf 2000 (fun _ => 0) [⟨none, 100⟩]).isWritten = false ∧
    mainExitCode 2000 (fun _ => 0) [⟨none, 100⟩] = 0 := by decide

/-- C4, amended: when the page sequence is empty (no input paths, or
every input failed to decode) no PDF is written; but the process exits
with a non-zero status only when the input path list itself is empty —
that check lives in `main`, before `create_pdf` — while the
all-decodes-failed case returns normally with exit status 0. -/
theorem C4_amended :
    ∀ (maxDim : Nat) (jpegSize : PILImage → Nat) (files : List InputFile),
      ((files.filterMap fun f => f.decoded).isEmpty →
        (create_pdf maxDim jpegSize files).isWritten = false) ∧
      (mainExitCode maxDim jpegSize files ≠ 0 ↔ files.isEmpty) := by
  intro maxDim jz files
  constructor
  · intro hempty
    have h0 : (files.filterMap fun f => f.decoded) = [] := by
      simpa [List.isEmpty_iff] using hempty
    have hpages :
        (files.filterMap fun f => f.decoded.map fun img => processPage maxDim img) = [] := by
      rw [← List.map_filterMap, h0]
      rfl
    rw [create_pdf]
    by_cases h1 : files.isEmpty
    · simp [h1, PdfOutcome.isWritten]
    · simp [h1, hpages, PdfOutcome.isWritten]
  · rw [mainExitCode]
    by_cases h1 : files.isEmpty <;> simp [h1]

/-- C4 witness: the first part of `C4_amended` at a concrete undecodable
input. -/
theorem C4_witness : (create_pdf 2000 (fun _ => 1) [⟨none, 7⟩]).isWritten = false :=
  (C4_amended 2000 (fun _ => 1) [⟨none, 7⟩]).1 (by decide)

/-- C6, confirmed: whatever the source mode, the normalization step
outputs an `RGB` (3-channel, opaque) image of unchanged dimensions;
`RGBA`, `LA` and `P` sources are composited onto an opaque white
background through an alpha mask (a `P` source being converted to `RGBA`
first, so the mask exists in all three cases); any other non-`RGB` mode
is converted directly; an `RGB` source passes through. -/
theorem C6_normalize_to_rgb :
    ∀ img : PILImage,
      (convertStep img).mode = .RGB ∧
      (convertStep img).width = img.width ∧
      (convertStep img).height = img.height ∧
      (img.mode = .RGBA ∨ img.mode = .LA ∨ img.mode = .P →
        convertAction img = .whiteCompositeMasked) ∧
      (¬(img.mode = .RGBA ∨ img.mode = .LA ∨ img.mode = .P) → img.mode ≠ .RGB →
        convertAction img = .directConvert) ∧
      (img.mode = .RGB → convertAction img = .keep) := by
  rintro ⟨w, h, m⟩
  cases m <;> simp [convertStep, convertAction]

/-- C6 witness: an `RGBA` image is composited onto white with a mask. -/
theorem C6_witness :
    convertAction ⟨1, 1, Mode.RGBA⟩ = NormalizeOp.whiteCompositeMasked :=
  (C6_normalize_to_rgb ⟨1, 1, Mode.RGBA⟩).2.2.2.1 (Or.inl rfl)

/-- C9, confirmed: in any written outcome, the compression report is
present (the division by `total_original_size` is performed) exactly when
`total_original_size` is strictly positive — never with a zero divisor. -/
theorem C9_report_only_when_positive :
    ∀ (maxDim : Nat) (jpegSize : PILImage → Nat) (files : List InputFile)
      (pages : List PILImage) (rep : Option ℚ),
      create_pdf maxDim jpegSize files = .written pages rep →
      (rep.isSome ↔ 0 < totalOriginalSize files) := by
  intro maxDim jz files pages rep h
  simp only [create_pdf] at h
  by_cases h1 : files.isEmpty
  · simp [h1] at h
  · rw [if_neg h1] at h
    by_cases h2 :
        (files.filterMap fun f => f.decoded.map fun img => processPage maxDim img).isEmpty
    · simp [h2] at h
    · rw [if_neg h2] at h
      injection h with hpages hrep
      by_cases h3 : 0 < totalOriginalSize files
      · rw [← hrep, if_pos h3]
        simp [h3]
      · rw [← hrep, if_neg h3]
        simp [h3]

/-- C9 witness: a decoded input of byte size 0 yields a written PDF with
the report skipped, matching `total_original_size = 0`. -/
theorem C9_witness :
    (Option.none : Option ℚ).isSome ↔ 0 < totalOriginalSize [⟨some ⟨10, 10, Mode.RGB⟩, 0⟩] :=
  C9_report_only_when_positive 2000 (fun _ => 5) [⟨some ⟨10, 10, Mode.RGB⟩, 0⟩]
    [⟨10, 10, Mode.RGB⟩] none (by decide)

/-! ## Claim C5: the resize step -/

theorem floorToNat_bounds {q : ℚ} (hq : 0 ≤ q) :
    ((⌊q⌋.toNat : ℚ)) ≤ q ∧ q < ((⌊q⌋.toNat : ℚ)) + 1 := by
  have h0 : (0 : ℤ) ≤ ⌊q⌋ := Int.floor_nonneg.mpr hq
  have hc : ((⌊q⌋.toNat : ℚ)) = ((⌊q⌋ : ℚ)) := by exact_mod_cast Int.toNat_of_nonneg h0
  exact ⟨hc ▸ Int.floor_le q, hc ▸ Int.lt_floor_add_one q⟩

/-- Exact value of the scaled larger dimension and bound on the smaller
one: with `b ≤ a` and `m < a`, scaling `a` by `min (m/a) (m/b)` and
flooring gives exactly `m`, and scaling `b` gives at most `m`. -/
theorem resize_core {m a b : Nat} (ha : 0 < a) (hb : 0 < b) (hba : b ≤ a) :
    (⌊(a : ℚ) * min ((m : ℚ) / a) ((m : ℚ) / b)⌋).toNat = m ∧
    (⌊(b : ℚ) * min ((m : ℚ) / a) ((m : ℚ) / b)⌋).toNat ≤ m := by
  have haq : (0 : ℚ) < a := by exact_mod_cast ha
  have hbq : (0 : ℚ) < b := by exact_mod_cast hb
  have hbaq : (b : ℚ) ≤ a := by exact_mod_cast hba
  have hmin : min ((m : ℚ) / a) ((m : ℚ) / b) = (m : ℚ) / a := by
    apply min_eq_left
    gcongr
  have hcancel : (a : ℚ) * ((m : ℚ) / a) = m := by
    rw [mul_comm, div_mul_cancel₀ _ (ne_of_gt haq)]
  constructor
  · rw [hmin, hcancel, Int.floor_natCast]
    exact Int.toNat_natCast m
  · rw [hmin]
    have hb_le : (b : ℚ) * ((m : ℚ) / a) ≤ m := by
      calc (b : ℚ) * ((m : ℚ) / a) ≤ (a : ℚ) * ((m : ℚ) / a) := by
            apply mul_le_mul_of_nonneg_right hbaq
            positivity
      _ = m := hcancel
    have : ⌊(b : ℚ) * ((m : ℚ) / a)⌋ ≤ (m : ℤ) := by
      rw [show (m : ℤ) = ⌊(m : ℚ)⌋ from (Int.floor_natCast m).symm]
      exact Int.floor_le_floor hb_le
    exact Int.toNat_le.mpr this

/-- C5, amended: within bounds the resize step is the identity (never an
upscale); otherwise both dimensions are multiplied by the single uniform
factor `min (m / w) (m / h)` and *truncated* (floored) to an integer
pixel — not rounded to nearest — so each resulting dimension is within
one pixel below its exact scaled value, the larger resulting dimension
equals `m` exactly, no dimension grows, and the mode is untouched. -/
theorem C5_resize (m : Nat) (img : PILImage) (hw : 0 < img.width) (hh : 0 < img.height) :
    (img.width ≤ m ∧ img.height ≤ m → resizeStep m img = img) ∧
    (m < img.width ∨ m < img.height →
      max (resizeStep m img).width (resizeStep m img).height = m ∧
      (resizeStep m img).width ≤ img.width ∧
      (resizeStep m img).height ≤ img.height ∧
      (((resizeStep m img).width : ℚ) ≤
          img.width * min ((m : ℚ) / img.width) ((m : ℚ) / img.height) ∧
        (img.width : ℚ) * min ((m : ℚ) / img.width) ((m : ℚ) / img.height) <
          ((resizeStep m img).width : ℚ) + 1) ∧
      (((resizeStep m img).height : ℚ) ≤
          img.height * min ((m : ℚ) / img.width) ((m : ℚ) / img.height) ∧
        (img.height : ℚ) * min ((m : ℚ) / img.width) ((m : ℚ) / img.height) <
          ((resizeStep m img).height : ℚ) + 1) ∧
      (resizeStep m img).mode = img.mode) := by
  obtain ⟨w, h, mo⟩ := img
  simp only at hw hh
  constructor
  · rintro ⟨h1, h2⟩
    rw [resizeStep, if_neg]
    rintro (hc | hc) <;> omega
  · intro hcond
    simp only at hcond
    rw [resizeStep, if_pos hcond]
    simp only
    have hwq : (0 : ℚ) < w := by exact_mod_cast hw
    have hhq : (0 : ℚ) < h := by exact_mod_cast hh
    have hS0 : (0 : ℚ) ≤ min ((m : ℚ) / w) ((m : ℚ) / h) := by positivity
    have hS1 : min ((m : ℚ) / w) ((m : ℚ) / h) ≤ 1 := by
      rcases le_total h w with hhw | hwh
      · have hmw : m < w := by omega
        calc min ((m : ℚ) / w) ((m : ℚ) / h) ≤ (m : ℚ) / w := min_le_left _ _
        _ ≤ 1 := le_of_lt ((div_lt_one hwq).mpr (by exact_mod_cast hmw))
      · have hmh : m < h := by omega
        calc min ((m : ℚ) / w) ((m : ℚ) / h) ≤ (m : ℚ) / h := min_le_right _ _
        _ ≤ 1 := le_of_lt ((div_lt_one hhq).mpr (by exact_mod_cast hmh))
    have hwbounds := floorToNat_bounds
      (mul_nonneg (le_of_lt hwq) hS0 :
        (0 : ℚ) ≤ (w : ℚ) * min ((m : ℚ) / w) ((m : ℚ) / h))
    have hhbounds := floorToNat_bounds
      (mul_nonneg (le_of_lt hhq) hS0 :
        (0 : ℚ) ≤ (h : ℚ) * min ((m : ℚ) / w) ((m : ℚ) / h))
    have hwle : (⌊(w : ℚ) * min ((m : ℚ) / w) ((m : ℚ) / h)⌋).toNat ≤ w := by
      have : ((⌊(w : ℚ) * min ((m : ℚ) / w) ((m : ℚ) / h)⌋.toNat : ℚ)) ≤ w := by
        calc ((⌊(w : ℚ) * min ((m : ℚ) / w) ((m : ℚ) / h)⌋.toNat : ℚ))
            ≤ (w : ℚ) * min ((m : ℚ) / w) ((m : ℚ) / h) := hwbounds.1
        _ ≤ (w : ℚ) * 1 := mul_le_mul_of_nonneg_left hS1 (le_of_lt hwq)
        _ = w := mul_one _
      exact_mod_cast this
    have hhle : (⌊(h : ℚ) * min ((m : ℚ) / w) ((m : ℚ) / h)⌋).toNat ≤ h := by
      have : ((⌊(h : ℚ) * min ((m : ℚ) / w) ((m : ℚ) / h)⌋.toNat : ℚ)) ≤ h := by
        calc ((⌊(h : ℚ) * min ((m : ℚ) / w) ((m : ℚ) / h)⌋.toNat : ℚ))
            ≤ (h : ℚ) * min ((m : ℚ) / w) ((m : ℚ) / h) := hhbounds.1
        _ ≤ (h : ℚ) * 1 := mul_le_mul_of_nonneg_left hS1 (le_of_lt hhq)
        _ = h := mul_one _
      exact_mod_cast this
    refine ⟨?_, hwle, hhle, hwbounds, hhbounds, trivial⟩
    rcases le_total h w with hhw | hwh
    · obtain ⟨hmax, hother⟩ := resize_core hw hh hhw (m := m)
      rw [hmax]
      exact Nat.max_eq_left (by rw [min_comm] at hother ⊢; exact hother)
    · have := resize_core hh hw hwh (m := m)
      rw [min_comm ((m : ℚ) / h) ((m : ℚ) / w)] at this
      obtain ⟨hmax, hother⟩ := this
      rw [hmax]
      exact Nat.max_eq_right hother

/-- C5, counterexample to the claim as stated: the code truncates the
scaled dimensions with `int(...)` instead of rounding to the nearest
integer pixel.  A 3000x1000 image at `max_dimension = 2000` scales its
height to 1000 x (2/3) = 666.66..., which the code turns into 666 while
round-to-nearest (the spec's wording, `resizeStepSpec`) gives 667. -/
theorem C5_counterexample :
    (resizeStep 2000 ⟨3000, 1000, Mode.RGB⟩).height = 666 ∧
    (resizeStepSpec 2000 ⟨3000, 1000, Mode.RGB⟩).height = 667 ∧
    resizeStep 2000 ⟨3000, 1000, Mode.RGB⟩ ≠ resizeStepSpec 2000 ⟨3000, 1000, Mode.RGB⟩ := by
  have hmin : min ((2000 : ℚ) / 3000) ((2000 : ℚ) / 1000) = (2000 : ℚ) / 3000 := by
    apply min_eq_left
    norm_num
  have h1 : (resizeStep 2000 ⟨3000, 1000, Mode.RGB⟩).height = 666 := by
    rw [resizeStep, if_pos (Or.inl (by norm_num))]
    simp only
    push_cast
    rw [hmin, show ⌊(1000 : ℚ) * ((2000 : ℚ) / 3000)⌋ = 666 from by
      rw [Int.floor_eq_iff]; norm_num]
    rfl
  have h2 : (resizeStepSpec 2000 ⟨3000, 1000, Mode.RGB⟩).height = 667 := by
    rw [resizeStepSpec, if_pos (Or.inl (by norm_num))]
    simp only
    push_cast
    rw [hmin, show round ((1000 : ℚ) * ((2000 : ℚ) / 3000)) = 667 from by
      rw [round_eq, Int.floor_eq_iff]; norm_num]
    rfl
  refine ⟨h1, h2, fun heq => ?_⟩
  rw [heq, h2] at h1
  exact absurd h1 (by norm_num)

/-- C5 witness: the scaled-down 3000x1000 image has its larger dimension
landing exactly on `max_dimension = 2000`. -/
theorem C5_witness :
    max (resizeStep 2000 ⟨3000, 1000, Mode.RGB⟩).width
      (resizeStep 2000 ⟨3000, 1000, Mode.RGB⟩).height = 2000 :=
  ((C5_resize 2000 ⟨3000, 1000, Mode.RGB⟩ (by norm_num) (by norm_num)).2
    (Or.inl (by norm_num))).1

/-- C3 witness: the run on the two-burst sequence of claim C2 terminates,
through the trajectory characterization at `n = 8`. -/
theorem C3_witness : Terminates 5 respTwoRuns 1 :=
  (C3_terminates_iff_enough_404s.1 5 respTwoRuns 1).mpr ⟨8, by decide⟩

end CaldwellsClarion
